import Mathlib

/-!
Verification of the claude-supermemory local-first storage and sync engine.

The development shallowly embeds the core of the repository:
* `SqliteManager` (src/lib/sqlite-manager.js): the local SQLite store for
  memory records, with its FTS5 full-text index.
* `GitHubSync` (src/lib/github-sync.js): export/import of memory records to
  the file-per-record checkout layout.
* `GitHubAuth` (src/lib/github-auth.js): the device-flow token polling loop.
* `StorageClient` (src/lib/storage-client.js): the facade coordinating the
  store with the sync engine.

Modelling conventions:
* The memories table is a list of rows in rowid (insertion) order.
* Machine timestamps (`Date.now()`, epoch milliseconds) are `Nat` parameters.
* A JSON metadata object is modelled as an association list of string keys to
  string values (`Meta`); `JSON.stringify` of such a document is injective and
  `JSON.parse` inverts it, so the serialized TEXT column is represented by the
  wrapper `MetaText` holding the document it encodes.
* SQLite `ORDER BY` is modelled with a stable insertion sort; the FTS5 `rank`
  value (bm25, lower is better) is an oracle parameter `rank` supplied to the
  queries that use it, since its numeric value is internal to the engine.
* The FTS5 `MATCH` operator with the default unicode61 tokenizer is modelled
  by case-insensitive token containment over the two indexed columns
  (`content` and `container_tag`).
-/

/-- A JSON metadata object (open key/value document), opaque to the store. -/
abbrev Meta := List (String × String)

/-- The serialized textual form of a metadata document, as produced by
JSON.stringify. Since stringify is deterministic and injective and JSON.parse
inverts it, the stored TEXT is represented by the document it encodes. -/
structure MetaText where
  val : Meta
deriving DecidableEq, Repr

/-- A row of the memories table (src/lib/sqlite-manager.js, initSchema). -/
structure MemoryRow where
  id : String
  content : String
  container_tag : String
  metadata : MetaText
  created_at : Nat
  updated_at : Nat
  synced_at : Option Nat
  sync_status : String
deriving DecidableEq, Repr

/-- The memories table, in rowid (insertion) order. -/
abbrev Store := List MemoryRow

/-- Tokenization helper: accumulate alphanumeric runs, lowercased, as the
unicode61 tokenizer of FTS5 does for ASCII text. -/
def tokenizeAux : List Char → List Char → List String
  | [], acc => if acc.isEmpty then [] else [String.mk acc.reverse]
  | c :: cs, acc =>
    if c.isAlphanum then tokenizeAux cs (c.toLower :: acc)
    else if acc.isEmpty then tokenizeAux cs acc
    else String.mk acc.reverse :: tokenizeAux cs []

/-- Split a string into lowercased alphanumeric tokens. -/
def tokenize (s : String) : List String :=
  tokenizeAux s.toList []

/-- Model of the FTS5 expression `memories_fts MATCH query`: every token of
the query occurs among the tokens of the indexed columns (`content` and
`container_tag`). An empty token list matches nothing (FTS5 rejects it). -/
def ftsMatch (query : String) (r : MemoryRow) : Bool :=
  let qs := tokenize query
  let doc := tokenize r.content ++ tokenize r.container_tag
  !qs.isEmpty && qs.all (fun t => doc.contains t)

/-- Ordering used for `ORDER BY created_at DESC` (newest first). -/
def newerFirst : MemoryRow → MemoryRow → Prop :=
  fun a b => b.created_at ≤ a.created_at

instance : DecidableRel newerFirst :=
  fun a b => Nat.decLe b.created_at a.created_at

/-- Ordering used for `ORDER BY rank` (the FTS5 bm25 rank, lower is better),
with the rank value supplied by the index engine as an oracle. -/
def byRank (rank : MemoryRow → Int) : MemoryRow → MemoryRow → Prop :=
  fun a b => rank a ≤ rank b

instance byRankDecidable (rank : MemoryRow → Int) : DecidableRel (byRank rank) :=
  fun a b => Int.decLe (rank a) (rank b)

/-- Stable model of `ORDER BY created_at DESC`. -/
def sortByCreatedDesc (l : List MemoryRow) : List MemoryRow :=
  List.insertionSort newerFirst l

/-- Stable model of `ORDER BY rank`. -/
def sortByRank (rank : MemoryRow → Int) (l : List MemoryRow) : List MemoryRow :=
  List.insertionSort (byRank rank) l

namespace SqliteManager

/-- The row built by the INSERT in `addMemory`: `sync_status` is written as
the literal "pending", `synced_at` is absent from the column list so it is
NULL, and `created_at = updated_at = Date.now()`. -/
def pendingRow (id content containerTag : String) (meta : Meta)
    (now : Nat) : MemoryRow :=
  { id := id
    content := content
    container_tag := containerTag
    metadata := MetaText.mk meta
    created_at := now
    updated_at := now
    synced_at := none
    sync_status := "pending" }

/-- Appending the freshly inserted row to the table. -/
def insertRow (s : Store) (id content containerTag : String) (meta : Meta)
    (now : Nat) : Store :=
  s ++ [pendingRow id content containerTag meta now]

/-- SqliteManager.addMemory: INSERT of a fresh row; the PRIMARY KEY
constraint makes the statement throw when the id is already present,
modelled by `none`. -/
def addMemory (s : Store) (id content containerTag : String) (meta : Meta)
    (now : Nat) : Option Store :=
  if s.any (fun r => r.id == id) then none
  else some (insertRow s id content containerTag meta now)

/-- SqliteManager.getMemory: `SELECT * FROM memories WHERE id = ?`. -/
def getMemory (s : Store) (id : String) : Option MemoryRow :=
  s.find? (fun r => r.id == id)

/-- SqliteManager.updateMemory: rewrites `content`, bumps `updated_at`, sets
`sync_status` to "pending", and rewrites `metadata` only when one is passed;
no other column (in particular `synced_at`) is touched. -/
def updateMemory (s : Store) (id content : String) (meta : Option Meta)
    (now : Nat) : Store :=
  s.map (fun r =>
    if r.id == id then
      { r with
        content := content
        updated_at := now
        sync_status := "pending"
        metadata := (match meta with
          | some m => MetaText.mk m
          | none => r.metadata) }
    else r)

/-- SqliteManager.deleteMemory: `DELETE FROM memories WHERE id = ?`. -/
def deleteMemory (s : Store) (id : String) : Store :=
  s.filter (fun r => !(r.id == id))

/-- SqliteManager.listMemories: rows of one tag, newest first, limited. -/
def listMemories (s : Store) (containerTag : String) (limit : Nat) :
    List MemoryRow :=
  (sortByCreatedDesc (s.filter (fun r => r.container_tag == containerTag))).take limit

/-- SqliteManager.getPendingSync: `SELECT * FROM memories WHERE sync_status =
'pending'`, in table order. -/
def getPendingSync (s : Store) : List MemoryRow :=
  s.filter (fun r => r.sync_status == "pending")

/-- SqliteManager.markSynced: `UPDATE memories SET sync_status = 'synced',
synced_at = ? WHERE id IN (...)`. -/
def markSynced (s : Store) (ids : List String) (now : Nat) : Store :=
  s.map (fun r =>
    if ids.contains r.id then
      { r with sync_status := "synced", synced_at := some now }
    else r)

/-- SqliteManager.searchMemories: FTS match, optional tag filter, ordered by
the engine rank, limited; each row is paired with the exposed
`relevance_score = rank * -1` column. -/
def searchMemories (rank : MemoryRow → Int) (s : Store) (query : String)
    (containerTag : Option String) (limit : Nat) : List (MemoryRow × Int) :=
  let rows := s.filter (fun r =>
    ftsMatch query r &&
      (match containerTag with
        | some t => r.container_tag == t
        | none => true))
  ((sortByRank rank rows).take limit).map (fun r => (r, -(rank r)))

/-- Score attached to a row returned by `getContextMemories`: recent rows
carry the fixed sentinel `1.0` of the first query; relevance rows carry the
`rank * -1` value of the FTS query. -/
inductive CtxScore where
  | sentinel
  | rel (score : Int)
deriving DecidableEq, Repr

/-- The first query of getContextMemories: most-recent rows of the tag,
limited to `⌊limit / 2⌋`. -/
def contextRecent (s : Store) (containerTag : String) (limit : Nat) :
    List MemoryRow :=
  (sortByCreatedDesc (s.filter (fun r => r.container_tag == containerTag))).take (limit / 2)

/-- The second query of getContextMemories: FTS matches for the project
hint, scoped to the tag, ordered by rank, limited to `⌊limit / 2⌋`. -/
def contextRelevant (rank : MemoryRow → Int) (s : Store)
    (containerTag projectName : String) (limit : Nat) : List MemoryRow :=
  (sortByRank rank (s.filter (fun r =>
    ftsMatch projectName r && r.container_tag == containerTag))).take (limit / 2)

/-- The dedup loop of getContextMemories: push a relevance row only when its
id is not in `seen`, adding pushed ids to `seen` as it goes. -/
def dedupRelevant (rank : MemoryRow → Int) (seen : List String) :
    List MemoryRow → List (MemoryRow × CtxScore)
  | [] => []
  | m :: ms =>
    if seen.contains m.id then dedupRelevant rank seen ms
    else (m, CtxScore.rel (-(rank m))) :: dedupRelevant rank (m.id :: seen) ms

/-- SqliteManager.getContextMemories: hybrid recent + relevant retrieval,
deduplicated by id with the recent copy kept, truncated to `limit`. -/
def getContextMemories (rank : MemoryRow → Int) (s : Store)
    (containerTag projectName : String) (limit : Nat) :
    List (MemoryRow × CtxScore) :=
  let recent := contextRecent s containerTag limit
  let relevant := contextRelevant rank s containerTag projectName limit
  let combined :=
    recent.map (fun r => (r, CtxScore.sentinel)) ++
      dedupRelevant rank (recent.map (fun r => r.id)) relevant
  combined.take limit

end SqliteManager

/-- The spec invariant on a store: `syncStatus = synced` iff `syncedAt` is
non-null, for every record. -/
def StoreInv (s : Store) : Prop :=
  ∀ r ∈ s, r.sync_status = "synced" ↔ r.synced_at ≠ none

instance : DecidablePred StoreInv := fun s =>
  List.decidableBAll _ s

/-- The one-directional invariant: `syncStatus = synced` implies `syncedAt`
is non-null. -/
def StoreInvFwd (s : Store) : Prop :=
  ∀ r ∈ s, r.sync_status = "synced" → r.synced_at ≠ none

instance : DecidablePred StoreInvFwd := fun s =>
  List.decidableBAll _ s

namespace GitHubSync

/-- Civil calendar date (year, month, day) from a day count since the Unix
epoch, the standard era-based conversion; `new Date(ms)` with the
getFullYear / getMonth / getDate accessors is modelled in UTC. -/
def civilFromDays (days : Nat) : Nat × Nat × Nat :=
  let z := days + 719468
  let era := z / 146097
  let doe := z % 146097
  let yoe := (doe - doe / 1460 + doe / 36524 - doe / 146096) / 365
  let y := yoe + era * 400
  let doy := doe - (365 * yoe + yoe / 4 - yoe / 100)
  let mp := (5 * doy + 2) / 153
  let d := doy - (153 * mp + 2) / 5 + 1
  let m := if mp < 10 then mp + 3 else mp - 9
  (if m ≤ 2 then y + 1 else y, m, d)

/-- Year, month and day of an epoch-milliseconds timestamp. -/
def dateParts (ms : Nat) : Nat × Nat × Nat :=
  civilFromDays (ms / 86400000)

/-- Zero padding to two digits, as `String(n).padStart(2, '0')` does. -/
def pad2 (n : Nat) : String :=
  if n < 10 then "0" ++ toString n else toString n

/-- The deterministic export path of a record:
`memories/<containerTag>/<YYYY-MM>/<DD>-<id>.json`. -/
def exportPath (m : MemoryRow) : String :=
  let parts := dateParts m.created_at
  "memories/" ++ m.container_tag ++ "/" ++ toString parts.1 ++ "-" ++
    pad2 parts.2.1 ++ "/" ++ pad2 parts.2.2 ++ "-" ++ m.id ++ ".json"

/-- The JSON document written by exportMemory: the record's full field set
with the metadata re-serialized as an object (parsed when the row carries it
as text). -/
structure ExportDoc where
  id : String
  content : String
  containerTag : String
  metadata : Meta
  createdAt : Nat
  updatedAt : Nat
deriving DecidableEq, Repr

/-- The memories tree of the checkout directory: a path-keyed file map in
creation order. File contents are the JSON documents; `JSON.stringify(data,
null, 2)` is deterministic, so two files are byte-equivalent exactly when
their documents are equal. -/
abbrev Files := List (String × ExportDoc)

/-- Model of `fs.writeFileSync`: overwrite the file at the path when it
exists, otherwise create it. -/
def putFile (fs : Files) (p : String) (d : ExportDoc) : Files :=
  if fs.any (fun e => e.1 == p) then
    fs.map (fun e => if e.1 == p then (p, d) else e)
  else fs ++ [(p, d)]

/-- The document exported for a row. -/
def docOf (m : MemoryRow) : ExportDoc :=
  { id := m.id
    content := m.content
    containerTag := m.container_tag
    metadata := m.metadata.val
    createdAt := m.created_at
    updatedAt := m.updated_at }

/-- GitHubSync.exportMemory: write the record's document at its derived path
and return the path. -/
def exportMemory (fs : Files) (m : MemoryRow) : Files × String :=
  (putFile fs (exportPath m) (docOf m), exportPath m)

/-- GitHubSync.exportMemories: export each record in turn. -/
def exportMemories (fs : Files) (ms : List MemoryRow) : Files :=
  ms.foldl (fun acc m => (exportMemory acc m).1) fs

/-- The record synthesized for one parsed file by importMemories:
`sync_status` is the literal "synced" and `synced_at` is `Date.now()`;
content, tag, metadata and both timestamps come from the file. -/
def rowOfDoc (d : ExportDoc) (now : Nat) : MemoryRow :=
  { id := d.id
    content := d.content
    container_tag := d.containerTag
    metadata := MetaText.mk d.metadata
    created_at := d.createdAt
    updated_at := d.updatedAt
    synced_at := some now
    sync_status := "synced" }

/-- GitHubSync.importMemories: walk every JSON file of the memories tree and
synthesize a record per file. All files in the model parse (a parse failure
in the source merely skips that file). -/
def importMemories (fs : Files) (now : Nat) : List MemoryRow :=
  fs.map (fun e => rowOfDoc e.2 now)

end GitHubSync

namespace GitHubAuth

/-- Outcome of one HTTP poll of the token-exchange endpoint: an access
token, the `authorization_pending` marker, or any other response, which the
poll promise rejects with. -/
inductive PollResult where
  | token (t : String)
  | pending
  | denied (e : String)
deriving DecidableEq, Repr

/-- The polling loop of pollForToken: up to `fuel` polls starting at poll
index `i`; a token resolves the loop, a denial rejects it immediately, and
exhausted fuel raises the timeout error. Returns the outcome and the total
number of polls performed. -/
def pollRun (polls : Nat → PollResult) : Nat → Nat → Except String String × Nat
  | 0, i => (Except.error "Device flow timed out", i)
  | fuel + 1, i =>
    match polls i with
    | PollResult.token t => (Except.ok t, i + 1)
    | PollResult.denied e => (Except.error e, i + 1)
    | PollResult.pending => pollRun polls fuel (i + 1)

/-- GitHubAuth.pollForToken: at most 120 polls of the exchange endpoint,
sleeping `interval` (policy: 5) seconds after each pending poll, so the loop
lasts at most 120 polls and 600 seconds of sleep at the default interval. -/
def pollForToken (polls : Nat → PollResult) : Except String String × Nat :=
  pollRun polls 120 0

end GitHubAuth

/-- Result envelope of the facade sync operations; absent JS object fields
are `none`. -/
structure SyncResult where
  success : Bool
  error : Option String := none
  synced : Option Nat := none
  imported : Option Nat := none
  conflict : Option Bool := none
deriving DecidableEq, Repr

/-- A repository operation attempted by the facade through the sync
engine. -/
inductive GitEffect where
  | publish
  | pull
deriving DecidableEq, Repr

/-- Outcome of the engine's pullFromGitHub (ensureRepo plus
`git pull origin main`), with the heuristic conflict classification of the
error text. -/
inductive PullOutcome where
  | ok
  | fail (conflict : Bool) (msg : String)

namespace StorageClient

/-- The envelope returned by both sync operations when no credential source
is available. -/
def notAuthenticatedResult : SyncResult :=
  { success := false, error := some "Not authenticated" }

/-- StorageClient.syncToGitHub. `authed` is the credential provider's
isAuthenticated answer; the engine publish cycle (ensureRepo, export, stage,
commit, push) is external git and process I/O, abstracted as the oracle
`gitOk` with failure message `errMsg`. Returns the store, the result
envelope, and the repository operations attempted. -/
def syncToGitHub (authed : Bool) (gitOk : Bool) (errMsg : String) (s : Store)
    (now : Nat) : Store × SyncResult × List GitEffect :=
  if !authed then (s, notAuthenticatedResult, [])
  else
    let pending := SqliteManager.getPendingSync s
    if pending.isEmpty then (s, { success := true, synced := some 0 }, [])
    else if gitOk then
      (SqliteManager.markSynced s (pending.map (fun m => m.id)) now,
       { success := true, synced := some pending.length }, [GitEffect.publish])
    else (s, { success := false, error := some errMsg }, [GitEffect.publish])

/-- One iteration of the import loop of StorageClient.syncFromGitHub: skip
the record when its id is already present, otherwise insert it through
SqliteManager.addMemory (which cannot hit its constraint failure here, the
id being absent). -/
def importStep (s : Store) (m : MemoryRow) (now : Nat) : Store :=
  match SqliteManager.getMemory s m.id with
  | some _ => s
  | none =>
    (SqliteManager.addMemory s m.id m.content m.container_tag m.metadata.val now).getD s

/-- StorageClient.syncFromGitHub. `pull` is the engine pull outcome; on
success the checkout's memories tree `fs` is imported and each record whose
id is absent locally is inserted, `importNow` being the Date.now of
importMemories and `insertNow` the Date.now of the insertions. -/
def syncFromGitHub (authed : Bool) (pull : PullOutcome) (fs : GitHubSync.Files)
    (importNow insertNow : Nat) (s : Store) :
    Store × SyncResult × List GitEffect :=
  if !authed then (s, notAuthenticatedResult, [])
  else
    match pull with
    | PullOutcome.fail c e =>
      (s, { success := false, conflict := some c, error := some e },
       [GitEffect.pull])
    | PullOutcome.ok =>
      let mems := GitHubSync.importMemories fs importNow
      (mems.foldl (fun acc m => importStep acc m insertNow) s,
       { success := true, imported := some mems.length }, [GitEffect.pull])

end StorageClient

/-! Concrete fixtures used by the testable-property instances of the spec. -/

/-- The search-scoping fixture of the spec: m1 and m2 under tagA, m3 under
tagB. -/
def store8 : Store :=
  SqliteManager.insertRow
    (SqliteManager.insertRow
      (SqliteManager.insertRow [] "m1" "Test memory 1" "tagA" [] 10)
      "m2" "Test memory 2" "tagA" [] 20)
    "m3" "Unrelated" "tagB" [] 30

/-- The hybrid-context fixture: two older rows matching the project hint
"alpha" and two newer rows that do not. -/
def store7 : Store :=
  SqliteManager.insertRow
    (SqliteManager.insertRow
      (SqliteManager.insertRow
        (SqliteManager.insertRow [] "v1" "alpha beta" "tag" [] 10)
        "v2" "alpha gamma" "tag" [] 20)
      "r1" "delta" "tag" [] 30)
    "r2" "epsilon" "tag" [] 40

/-- A record as written by addMemory, used by the round-trip instances. -/
def c2row : MemoryRow :=
  SqliteManager.pendingRow "m1" "hello" "work" [("k", "v")] 1000

/-- A record whose creation instant is 2023-11-14 UTC, for the export path
instance. -/
def pathrow : MemoryRow :=
  SqliteManager.pendingRow "p1" "c" "work" [] 1700000000000

/-- A store with two pending records, for the sync-after-publish
instance. -/
def store4 : Store :=
  SqliteManager.insertRow
    (SqliteManager.insertRow [] "a1" "first" "tag" [] 10)
    "a2" "second" "tag" [] 20

/-- A store holding one local row sharing its id with an incoming import,
for the local-wins instance. -/
def store5 : Store :=
  SqliteManager.insertRow [] "m1" "local text" "tag" [] 10

/-- An import batch carrying a colliding id m1 and a fresh id m9, for the
local-wins and import instances. -/
def files5 : GitHubSync.Files :=
  (GitHubSync.exportMemory
    ((GitHubSync.exportMemory [] c2row).1)
    (SqliteManager.pendingRow "m9" "remote text" "tag" [("a", "b")] 2000)).1

/-! Helper lemmas. -/

/-- Inserting a fresh pending row preserves the sync-status invariant. -/
theorem storeInv_insert (s : Store) (hs : StoreInv s) (id c tag : String)
    (meta : Meta) (now : Nat) :
    StoreInv (SqliteManager.insertRow s id c tag meta now) := by
  intro r hr
  rcases List.mem_append.mp hr with h1 | h1
  · exact hs r h1
  · rw [List.mem_singleton] at h1
    subst h1
    simp [SqliteManager.pendingRow]

/-- C1 (amended). The spec states that `syncStatus = synced` iff `syncedAt`
is non-null and that every store operation preserves this. In the code the
iff is preserved by addMemory, deleteMemory, markSynced and the import
insertion, and `syncStatus = synced` always implies `syncedAt` non-null; but
updateMemory, while always resetting the record to "pending" (as claimed),
leaves `syncedAt` untouched, so a previously synced record afterwards has a
non-null `syncedAt` with status "pending" and only the forward direction of
the invariant survives updateMemory. -/
theorem sync_status_invariant :
    (∀ (s t : Store) id c tag meta now, StoreInv s →
        SqliteManager.addMemory s id c tag meta now = some t → StoreInv t) ∧
    (∀ (s : Store) id, StoreInv s → StoreInv (SqliteManager.deleteMemory s id)) ∧
    (∀ (s : Store) ids now, StoreInv s → StoreInv (SqliteManager.markSynced s ids now)) ∧
    (∀ (s : Store) m now, StoreInv s → StoreInv (StorageClient.importStep s m now)) ∧
    (∀ (s : Store) id c meta now,
        (SqliteManager.updateMemory s id c meta now).map (fun r => r.synced_at)
          = s.map (fun r => r.synced_at)) ∧
    (∀ (s : Store) id c meta now r,
        r ∈ SqliteManager.updateMemory s id c meta now → r.id = id →
          r.sync_status = "pending") ∧
    (∀ (s : Store) id c meta now, StoreInvFwd s →
        StoreInvFwd (SqliteManager.updateMemory s id c meta now)) := by
  refine ⟨?_, ?_, ?_, ?_, ?_, ?_, ?_⟩
  · intro s t id c tag meta now hs hadd
    unfold SqliteManager.addMemory at hadd
    cases hany : s.any (fun r => r.id == id) <;> rw [hany] at hadd
    · simp only [Bool.false_eq_true, if_false, Option.some.injEq] at hadd
      subst hadd
      exact storeInv_insert s hs id c tag meta now
    · simp at hadd
  · intro s id hs r hr
    exact hs r (List.mem_filter.mp hr).1
  · intro s ids now hs r hr
    rcases List.mem_map.mp hr with ⟨r0, hr0, heq⟩
    cases hc : ids.contains r0.id <;> rw [hc] at heq
    · simp only [Bool.false_eq_true, if_false] at heq
      subst heq
      exact hs r0 hr0
    · simp only [if_true] at heq
      subst heq
      simp
  · intro s m now hs
    unfold StorageClient.importStep
    cases hg : SqliteManager.getMemory s m.id
    · have hany : s.any (fun r => r.id == m.id) = false := by
        rw [List.any_eq_false]
        intro x hx
        exact List.find?_eq_none.mp hg x hx
      simp only [SqliteManager.addMemory, hany, Bool.false_eq_true, if_false,
        Option.getD_some]
      exact storeInv_insert s hs m.id m.content m.container_tag m.metadata.val now
    · exact hs
  · intro s id c meta now
    unfold SqliteManager.updateMemory
    rw [List.map_map]
    apply List.map_congr_left
    intro r hr
    simp only [Function.comp_apply]
    split <;> rfl
  · intro s id c meta now r hr hid
    rcases List.mem_map.mp hr with ⟨r0, hr0, heq⟩
    cases hc : r0.id == id <;> rw [hc] at heq
    · simp only [Bool.false_eq_true, if_false] at heq
      subst heq
      exact absurd hid (by simpa using hc)
    · simp only [if_true] at heq
      subst heq
      rfl
  · intro s id c meta now hs r hr hsync
    rcases List.mem_map.mp hr with ⟨r0, hr0, heq⟩
    cases hc : r0.id == id <;> rw [hc] at heq
    · simp only [Bool.false_eq_true, if_false] at heq
      subst heq
      exact hs r0 hr0 hsync
    · simp only [if_true] at heq
      subst heq
      simp at hsync

/-- C1 counterexample: the claim as stated is false. A record added, marked
synced, then updated ends with `syncStatus = "pending"` while `syncedAt`
remains non-null, so the iff invariant is not preserved by updateMemory. -/
theorem sync_status_invariant_cex :
    SqliteManager.addMemory [] "m1" "text" "tag" [] 1
        = some (SqliteManager.insertRow [] "m1" "text" "tag" [] 1) ∧
    StoreInv (SqliteManager.markSynced
        (SqliteManager.insertRow [] "m1" "text" "tag" [] 1) ["m1"] 2) ∧
    ¬ StoreInv (SqliteManager.updateMemory
        (SqliteManager.markSynced
          (SqliteManager.insertRow [] "m1" "text" "tag" [] 1) ["m1"] 2)
        "m1" "new text" none 3) ∧
    (SqliteManager.updateMemory
        (SqliteManager.markSynced
          (SqliteManager.insertRow [] "m1" "text" "tag" [] 1) ["m1"] 2)
        "m1" "new text" none 3).map (fun r => (r.sync_status, r.synced_at))
      = [("pending", some 2)] := by decide

/-- Witness: the amended invariant theorem applied to a concrete store. -/
theorem sync_status_invariant_witness :
    StoreInv (SqliteManager.markSynced
        (SqliteManager.insertRow [] "w1" "c" "t" [] 1) ["w1"] 2) :=
  sync_status_invariant.2.2.1 _ ["w1"] 2 (by decide)

/-- C6: with the credential provider reporting no credential, both facade
sync operations return the `{success:false, error:"Not authenticated"}`
envelope, attempt no repository operation, and leave the store untouched. -/
theorem not_authenticated_short_circuit :
    (∀ (gitOk : Bool) (errMsg : String) (s : Store) (now : Nat),
        StorageClient.syncToGitHub false gitOk errMsg s now
          = (s, { success := false, error := some "Not authenticated" }, [])) ∧
    (∀ (pull : PullOutcome) (fs : GitHubSync.Files) (importNow insertNow : Nat)
        (s : Store),
        StorageClient.syncFromGitHub false pull fs importNow insertNow s
          = (s, { success := false, error := some "Not authenticated" }, [])) :=
  ⟨fun _ _ _ _ => rfl, fun _ _ _ _ _ => rfl⟩

/-- Two rows of a store with no duplicate ids and equal id fields are the
same row. -/
theorem row_id_inj {s : Store} (h : (s.map (fun r => r.id)).Nodup)
    {a b : MemoryRow} (ha : a ∈ s) (hb : b ∈ s) (hid : a.id = b.id) : a = b :=
  List.inj_on_of_nodup_map h ha hb hid

/-- Rows marked by the publish cycle are exactly the pending ones. -/
theorem markSynced_pending_eq (s : Store) (now : Nat)
    (h : (s.map (fun r => r.id)).Nodup) :
    SqliteManager.markSynced s
        ((SqliteManager.getPendingSync s).map (fun m => m.id)) now
      = s.map (fun r => if r.sync_status = "pending"
          then { r with sync_status := "synced", synced_at := some now }
          else r) := by
  unfold SqliteManager.markSynced
  apply List.map_congr_left
  intro r hr
  by_cases hp : r.sync_status = "pending"
  · rw [if_pos hp]
    have hmem : r.id ∈ (SqliteManager.getPendingSync s).map (fun m => m.id) := by
      apply List.mem_map.mpr
      refine ⟨r, ?_, rfl⟩
      exact List.mem_filter.mpr ⟨hr, by simpa using hp⟩
    have hc : ((SqliteManager.getPendingSync s).map (fun m => m.id)).contains r.id
        = true := List.elem_iff.mpr hmem
    rw [hc]
    simp
  · rw [if_neg hp]
    have hc : ((SqliteManager.getPendingSync s).map (fun m => m.id)).contains r.id
        = false := by
      cases hc : ((SqliteManager.getPendingSync s).map (fun m => m.id)).contains r.id
      · rfl
      · exfalso
        have hmem := List.elem_iff.mp hc
        rcases List.mem_map.mp hmem with ⟨r0, hr0, hid⟩
        have hr0s : r0 ∈ s := (List.mem_filter.mp hr0).1
        have : r0 = r := row_id_inj h hr0s hr hid
        subst this
        exact hp (by simpa using (List.mem_filter.mp hr0).2)
    rw [hc]
    simp

/-- C4: the facade marks records synced only after the publish cycle
reports success. On a successful publish exactly the pending rows flip to
"synced" with `syncedAt = now` and the result reports their count; on a
failed publish the store is entirely unchanged and (when there was anything
to publish) the failure envelope is returned. -/
theorem syncToGitHub_mark_after_publish (s : Store) (now : Nat) (e : String)
    (h : (s.map (fun r => r.id)).Nodup) :
    ((StorageClient.syncToGitHub true true e s now).1
        = s.map (fun r => if r.sync_status = "pending"
            then { r with sync_status := "synced", synced_at := some now }
            else r)
      ∧ (StorageClient.syncToGitHub true true e s now).2.1
          = { success := true,
              synced := some (SqliteManager.getPendingSync s).length })
    ∧ (StorageClient.syncToGitHub true false e s now).1 = s
    ∧ (SqliteManager.getPendingSync s ≠ [] →
        (StorageClient.syncToGitHub true false e s now).2.1
          = { success := false, error := some e }) := by
  refine ⟨⟨?_, ?_⟩, ?_, ?_⟩
  · cases hemp : (SqliteManager.getPendingSync s).isEmpty
    · show (if (SqliteManager.getPendingSync s).isEmpty then _ else _ : Store × SyncResult × List GitEffect).1 = _
      rw [hemp]
      simp only [Bool.false_eq_true, if_false]
      exact markSynced_pending_eq s now h
    · show (if (SqliteManager.getPendingSync s).isEmpty then _ else _ : Store × SyncResult × List GitEffect).1 = _
      rw [hemp]
      simp only [if_true]
      have hnil := List.isEmpty_iff.mp hemp
      have hall := List.filter_eq_nil_iff.mp hnil
      nth_rewrite 1 [show s = s.map id from (List.map_id s).symm]
      apply List.map_congr_left
      intro r hr
      rw [if_neg]
      · rfl
      · intro hp
        exact hall r hr (by simpa using hp)
  · cases hemp : (SqliteManager.getPendingSync s).isEmpty
    · show (if (SqliteManager.getPendingSync s).isEmpty then _ else _ : Store × SyncResult × List GitEffect).2.1 = _
      rw [hemp]
      rfl
    · show (if (SqliteManager.getPendingSync s).isEmpty then _ else _ : Store × SyncResult × List GitEffect).2.1 = _
      rw [hemp]
      have hnil := List.isEmpty_iff.mp hemp
      rw [hnil]
      rfl
  · cases hemp : (SqliteManager.getPendingSync s).isEmpty
    · show (if (SqliteManager.getPendingSync s).isEmpty then _ else _ : Store × SyncResult × List GitEffect).1 = s
      rw [hemp]
      rfl
    · show (if (SqliteManager.getPendingSync s).isEmpty then _ else _ : Store × SyncResult × List GitEffect).1 = s
      rw [hemp]
      rfl
  · intro hne
    cases hemp : (SqliteManager.getPendingSync s).isEmpty
    · show (if (SqliteManager.getPendingSync s).isEmpty then _ else _ : Store × SyncResult × List GitEffect).2.1 = _
      rw [hemp]
      rfl
    · exact absurd (List.isEmpty_iff.mp hemp) hne

/-- Witness: the mark-after-publish theorem at a concrete two-record
store. -/
theorem syncToGitHub_mark_after_publish_witness :
    ((StorageClient.syncToGitHub true true "boom" store4 9).1
        = store4.map (fun r => if r.sync_status = "pending"
            then { r with sync_status := "synced", synced_at := some 9 }
            else r)
      ∧ (StorageClient.syncToGitHub true true "boom" store4 9).2.1
          = { success := true,
              synced := some (SqliteManager.getPendingSync store4).length })
    ∧ (StorageClient.syncToGitHub true false "boom" store4 9).1 = store4
    ∧ (SqliteManager.getPendingSync store4 ≠ [] →
        (StorageClient.syncToGitHub true false "boom" store4 9).2.1
          = { success := false, error := some "boom" }) :=
  syncToGitHub_mark_after_publish store4 9 "boom" (by decide)

/-- C2 counterexample: the claim as stated is false at a concrete record.
The record written via addMemory, exported, and imported into a fresh store
through syncFromGitHub ends with `syncStatus = "pending"`, not "synced",
because the facade's import loop re-inserts through addMemory. -/
theorem round_trip_cex :
    SqliteManager.addMemory [] "m1" "hello" "work" [("k", "v")] 1000
        = some [c2row] ∧
    (StorageClient.syncFromGitHub true PullOutcome.ok
        (GitHubSync.exportMemory [] c2row).1 5 6 []).1.map
      (fun r => r.sync_status) = ["pending"] ∧
    (StorageClient.syncFromGitHub true PullOutcome.ok
        (GitHubSync.exportMemory [] c2row).1 5 6 []).1.map
      (fun r => r.sync_status) ≠ ["synced"] := by decide

/-- C2 (amended): a record written via addMemory, exported, and imported
into a fresh store through syncFromGitHub keeps its content, containerTag
and metadata; the in-flight objects produced by importMemories carry
`syncStatus = "synced"` with `syncedAt` set, but the record stored in the
fresh store is re-inserted through addMemory and therefore has
`syncStatus = "pending"`, `syncedAt` null, and both timestamps equal to the
insertion instant. -/
theorem round_trip_preserves_fields (id c tag : String) (meta : Meta)
    (t1 t2 t3 : Nat) :
    SqliteManager.addMemory [] id c tag meta t1
        = some [SqliteManager.pendingRow id c tag meta t1] ∧
    GitHubSync.importMemories
        (GitHubSync.exportMemory [] (SqliteManager.pendingRow id c tag meta t1)).1 t2
      = [{ id := id
           content := c
           container_tag := tag
           metadata := MetaText.mk meta
           created_at := t1
           updated_at := t1
           synced_at := some t2
           sync_status := "synced" }] ∧
    (StorageClient.syncFromGitHub true PullOutcome.ok
        (GitHubSync.exportMemory [] (SqliteManager.pendingRow id c tag meta t1)).1
        t2 t3 []).1
      = [SqliteManager.pendingRow id c tag meta t3] :=
  ⟨rfl, rfl, rfl⟩

/-- Finding nothing in an extended table means finding nothing in its
prefix. -/
theorem getMemory_append_none {s t : Store} {id : String}
    (h : SqliteManager.getMemory (s ++ t) id = none) :
    SqliteManager.getMemory s id = none := by
  unfold SqliteManager.getMemory at h ⊢
  rw [List.find?_append] at h
  cases hf : List.find? (fun r => r.id == id) s
  · rfl
  · rw [hf] at h
    simp [Option.or] at h

/-- A lookup that succeeds on the prefix is unchanged by appended rows. -/
theorem getMemory_append_of_isSome {s t : Store} {id : String}
    (h : (SqliteManager.getMemory s id).isSome = true) :
    SqliteManager.getMemory (s ++ t) id = SqliteManager.getMemory s id := by
  unfold SqliteManager.getMemory at h ⊢
  rw [List.find?_append]
  cases hf : List.find? (fun r => r.id == id) s
  · simp [hf] at h
  · rfl

/-- Specification of the facade import loop: the store is extended, each
appended row being a fresh pending insertion (both timestamps at the
insertion instant) of an imported record whose id was absent from the
original store. -/
theorem importFold_spec (now : Nat) :
    ∀ (mems : List MemoryRow) (s : Store),
      ∃ new, mems.foldl (fun acc m => StorageClient.importStep acc m now) s
          = s ++ new ∧
        ∀ r ∈ new,
          r.sync_status = "pending" ∧ r.synced_at = none ∧
          r.created_at = now ∧ r.updated_at = now ∧
          SqliteManager.getMemory s r.id = none ∧
          ∃ m ∈ mems, r.id = m.id ∧ r.content = m.content ∧
            r.container_tag = m.container_tag ∧ r.metadata = m.metadata := by
  intro mems
  induction mems with
  | nil =>
    intro s
    exact ⟨[], by simp, by simp⟩
  | cons m ms ih =>
    intro s
    rw [List.foldl_cons]
    cases hg : SqliteManager.getMemory s m.id
    · have hstep : StorageClient.importStep s m now
          = s ++ [SqliteManager.pendingRow m.id m.content m.container_tag
                    m.metadata.val now] := by
        have hany : s.any (fun r => r.id == m.id) = false := by
          rw [List.any_eq_false]
          exact fun x hx => List.find?_eq_none.mp hg x hx
        simp [StorageClient.importStep, hg, SqliteManager.addMemory, hany,
          SqliteManager.insertRow]
      simp only [hstep]
      rcases ih (s ++ [SqliteManager.pendingRow m.id m.content m.container_tag
                        m.metadata.val now]) with ⟨new2, heq, hprops⟩
      refine ⟨SqliteManager.pendingRow m.id m.content m.container_tag
                m.metadata.val now :: new2, ?_, ?_⟩
      · rw [heq, List.append_assoc]
        rfl
      · intro r hr
        rcases List.mem_cons.mp hr with h1 | h1
        · subst h1
          refine ⟨rfl, rfl, rfl, rfl, hg, m, List.mem_cons_self m ms,
            rfl, rfl, rfl, rfl⟩
        · obtain ⟨hp, hsy, hc, hu, hgm, mw, hmw, hrest⟩ := hprops r h1
          exact ⟨hp, hsy, hc, hu, getMemory_append_none hgm, mw,
            List.mem_cons_of_mem m hmw, hrest⟩
    · have hstep : StorageClient.importStep s m now = s := by
        simp [StorageClient.importStep, hg]
      simp only [hstep]
      rcases ih s with ⟨new, heq, hprops⟩
      refine ⟨new, heq, ?_⟩
      intro r hr
      obtain ⟨hp, hsy, hc, hu, hgm, mw, hmw, hrest⟩ := hprops r hr
      exact ⟨hp, hsy, hc, hu, hgm, mw, List.mem_cons_of_mem m hmw, hrest⟩

/-- C3: every record newly inserted by syncFromGitHub (imported id not
already present) is stored with `syncStatus = "pending"`, `syncedAt` null,
and both timestamps equal to the insertion instant rather than the values
carried in the file, and it is returned by the next getPendingSync. -/
theorem syncFromGitHub_new_records_pending (fs : GitHubSync.Files) (s : Store)
    (importNow insertNow : Nat) :
    ∃ new,
      (StorageClient.syncFromGitHub true PullOutcome.ok fs importNow insertNow s).1
        = s ++ new ∧
      ∀ r ∈ new,
        r.sync_status = "pending" ∧ r.synced_at = none ∧
        r.created_at = insertNow ∧ r.updated_at = insertNow ∧
        SqliteManager.getMemory s r.id = none ∧
        (∃ m ∈ GitHubSync.importMemories fs importNow, r.id = m.id) ∧
        r ∈ SqliteManager.getPendingSync
          ((StorageClient.syncFromGitHub true PullOutcome.ok fs importNow insertNow s).1) := by
  rcases importFold_spec insertNow (GitHubSync.importMemories fs importNow) s
    with ⟨new, heq, hprops⟩
  have hrun :
      (StorageClient.syncFromGitHub true PullOutcome.ok fs importNow insertNow s).1
        = (GitHubSync.importMemories fs importNow).foldl
            (fun acc m => StorageClient.importStep acc m insertNow) s := rfl
  refine ⟨new, by rw [hrun, heq], ?_⟩
  intro r hr
  obtain ⟨hp, hsy, hc, hu, hgm, mw, hmw, hid, _⟩ := hprops r hr
  refine ⟨hp, hsy, hc, hu, hgm, ⟨mw, hmw, hid⟩, ?_⟩
  rw [hrun, heq]
  apply List.mem_filter.mpr
  exact ⟨List.mem_append_right s hr, by simpa using hp⟩

/-- Witness: the C3 theorem at a concrete import batch and store. -/
theorem syncFromGitHub_new_records_pending_witness :
    ∃ new,
      (StorageClient.syncFromGitHub true PullOutcome.ok files5 5 6 store5).1
        = store5 ++ new ∧
      ∀ r ∈ new,
        r.sync_status = "pending" ∧ r.synced_at = none ∧
        r.created_at = 6 ∧ r.updated_at = 6 ∧
        SqliteManager.getMemory store5 r.id = none ∧
        (∃ m ∈ GitHubSync.importMemories files5 5, r.id = m.id) ∧
        r ∈ SqliteManager.getPendingSync
          ((StorageClient.syncFromGitHub true PullOutcome.ok files5 5 6 store5).1) :=
  syncFromGitHub_new_records_pending files5 store5 5 6

/-- C5: local wins on import. During syncFromGitHub the original rows are
kept verbatim as a prefix of the table (so every stored field of every
existing record is unchanged), the appended rows all have ids that were
absent and come from the imported batch, and lookups of ids present before
the import return exactly what they returned before. -/
theorem syncFromGitHub_local_wins (fs : GitHubSync.Files) (s : Store)
    (importNow insertNow : Nat) :
    (∃ new,
      (StorageClient.syncFromGitHub true PullOutcome.ok fs importNow insertNow s).1
        = s ++ new ∧
      ∀ r ∈ new, SqliteManager.getMemory s r.id = none ∧
        ∃ m ∈ GitHubSync.importMemories fs importNow, r.id = m.id) ∧
    ∀ id, (SqliteManager.getMemory s id).isSome = true →
      SqliteManager.getMemory
          ((StorageClient.syncFromGitHub true PullOutcome.ok fs importNow insertNow s).1) id
        = SqliteManager.getMemory s id := by
  rcases importFold_spec insertNow (GitHubSync.importMemories fs importNow) s
    with ⟨new, heq, hprops⟩
  have hrun :
      (StorageClient.syncFromGitHub true PullOutcome.ok fs importNow insertNow s).1
        = (GitHubSync.importMemories fs importNow).foldl
            (fun acc m => StorageClient.importStep acc m insertNow) s := rfl
  constructor
  · refine ⟨new, by rw [hrun, heq], ?_⟩
    intro r hr
    obtain ⟨_, _, _, _, hgm, mw, hmw, hid, _⟩ := hprops r hr
    exact ⟨hgm, mw, hmw, hid⟩
  · intro id h
    rw [hrun, heq]
    exact getMemory_append_of_isSome h

/-- Witness: the C5 theorem at a store whose only id collides with one of
the two imported records. -/
theorem syncFromGitHub_local_wins_witness :
    (∃ new,
      (StorageClient.syncFromGitHub true PullOutcome.ok files5 5 6 store5).1
        = store5 ++ new ∧
      ∀ r ∈ new, SqliteManager.getMemory store5 r.id = none ∧
        ∃ m ∈ GitHubSync.importMemories files5 5, r.id = m.id) ∧
    ∀ id, (SqliteManager.getMemory store5 id).isSome = true →
      SqliteManager.getMemory
          ((StorageClient.syncFromGitHub true PullOutcome.ok files5 5 6 store5).1) id
        = SqliteManager.getMemory store5 id :=
  syncFromGitHub_local_wins files5 store5 5 6

/-- The dedup loop never returns more rows than it is given. -/
theorem dedupRelevant_length_le (rank : MemoryRow → Int) :
    ∀ (seen : List String) (l : List MemoryRow),
      (SqliteManager.dedupRelevant rank seen l).length ≤ l.length := by
  intro seen l
  induction l generalizing seen with
  | nil => simp [SqliteManager.dedupRelevant]
  | cons m ms ih =>
    unfold SqliteManager.dedupRelevant
    by_cases hc : seen.contains m.id = true
    · rw [if_pos hc]
      exact le_trans (ih seen) (Nat.le_succ _)
    · rw [if_neg hc]
      simpa using Nat.succ_le_succ (ih (m.id :: seen))

/-- Every pair kept by the dedup loop is a relevance-scored input row whose
id is outside the initial seen set. -/
theorem dedupRelevant_mem (rank : MemoryRow → Int) :
    ∀ (seen : List String) (l : List MemoryRow)
      (p : MemoryRow × SqliteManager.CtxScore),
      p ∈ SqliteManager.dedupRelevant rank seen l →
        (∃ sc, p.2 = SqliteManager.CtxScore.rel sc) ∧ p.1 ∈ l ∧
          p.1.id ∉ seen := by
  intro seen l
  induction l generalizing seen with
  | nil =>
    intro p hp
    simp [SqliteManager.dedupRelevant] at hp
  | cons m ms ih =>
    intro p hp
    unfold SqliteManager.dedupRelevant at hp
    by_cases hc : seen.contains m.id = true
    · rw [if_pos hc] at hp
      obtain ⟨hsc, hm, hid⟩ := ih seen p hp
      exact ⟨hsc, List.mem_cons_of_mem m hm, hid⟩
    · rw [if_neg hc] at hp
      rcases List.mem_cons.mp hp with h1 | h1
      · subst h1
        refine ⟨⟨-(rank m), rfl⟩, List.mem_cons_self m ms, ?_⟩
        intro hmem
        exact hc (List.elem_iff.mpr hmem)
      · obtain ⟨hsc, hm, hid⟩ := ih (m.id :: seen) p h1
        exact ⟨hsc, List.mem_cons_of_mem m hm,
          fun hmem => hid (List.mem_cons_of_mem _ hmem)⟩

/-- C7: getContextMemories fills the front of the result with the at most
`⌊limit/2⌋` most-recent rows of the tag, each carrying the sentinel score,
followed by at most `⌊limit/2⌋` relevance-scored full-text matches whose
ids avoid the recent block (recents win on id collision), the whole list
truncated to `limit`; and on the spec fixture with `limit = 4`, two recent
and two distinct relevant rows, all four rows come back with the two
most-recent first. -/
theorem getContextMemories_hybrid :
    (∀ (rank : MemoryRow → Int) (s : Store) (tag hint : String) (limit : Nat),
      ∃ B,
        SqliteManager.getContextMemories rank s tag hint limit
          = (SqliteManager.contextRecent s tag limit).map
              (fun r => (r, SqliteManager.CtxScore.sentinel)) ++ B ∧
        (SqliteManager.contextRecent s tag limit).length ≤ limit / 2 ∧
        B.length ≤ limit / 2 ∧
        (∀ p ∈ B, (∃ sc, p.2 = SqliteManager.CtxScore.rel sc) ∧
          p.1 ∈ SqliteManager.contextRelevant rank s tag hint limit ∧
          p.1.id ∉ (SqliteManager.contextRecent s tag limit).map (fun r => r.id)) ∧
        (SqliteManager.getContextMemories rank s tag hint limit).length ≤ limit) ∧
    ((SqliteManager.getContextMemories (fun _ => 0) store7 "tag" "alpha" 4).map
        (fun p => p.1.id) = ["r2", "r1", "v1", "v2"] ∧
      (SqliteManager.getContextMemories (fun _ => 0) store7 "tag" "alpha" 4).map
        (fun p => p.2)
        = [SqliteManager.CtxScore.sentinel, SqliteManager.CtxScore.sentinel,
           SqliteManager.CtxScore.rel 0, SqliteManager.CtxScore.rel 0]) := by
  constructor
  · intro rank s tag hint limit
    have hout : SqliteManager.getContextMemories rank s tag hint limit
        = ((SqliteManager.contextRecent s tag limit).map
              (fun r => (r, SqliteManager.CtxScore.sentinel)) ++
            SqliteManager.dedupRelevant rank
              ((SqliteManager.contextRecent s tag limit).map (fun r => r.id))
              (SqliteManager.contextRelevant rank s tag hint limit)).take limit := rfl
    have hrecent_len : (SqliteManager.contextRecent s tag limit).length ≤ limit / 2 :=
      List.length_take_le _ _
    have hAlen : ((SqliteManager.contextRecent s tag limit).map
        (fun r => (r, SqliteManager.CtxScore.sentinel))).length ≤ limit := by
      rw [List.length_map]
      exact le_trans hrecent_len (Nat.div_le_self limit 2)
    refine ⟨(SqliteManager.dedupRelevant rank
        ((SqliteManager.contextRecent s tag limit).map (fun r => r.id))
        (SqliteManager.contextRelevant rank s tag hint limit)).take
          (limit - ((SqliteManager.contextRecent s tag limit).map
            (fun r => (r, SqliteManager.CtxScore.sentinel))).length),
      ?_, hrecent_len, ?_, ?_, ?_⟩
    · rw [hout, List.take_append_eq_append_take, List.take_of_length_le hAlen]
    · rw [List.length_take]
      refine le_trans (min_le_right _ _) ?_
      refine le_trans (dedupRelevant_length_le rank _ _) ?_
      exact List.length_take_le _ _
    · intro p hp
      have hp2 := (List.take_sublist _ _).mem hp
      obtain ⟨hsc, hm, hid⟩ := dedupRelevant_mem rank _ _ p hp2
      exact ⟨hsc, hm, hid⟩
    · rw [hout]
      exact List.length_take_le _ _
  · exact ⟨by decide, by decide⟩

/-- Sortedness of the rank ordering produced by the model of
`ORDER BY rank`. -/
theorem sortByRank_sorted (rank : MemoryRow → Int) (l : List MemoryRow) :
    List.Pairwise (byRank rank) (sortByRank rank l) :=
  @List.sorted_insertionSort _ (byRank rank) (byRankDecidable rank)
    ⟨fun a b => Int.le_total (rank a) (rank b)⟩
    ⟨fun _ _ _ h1 h2 => le_trans h1 h2⟩ l

/-- The rank sort is a permutation of its input. -/
theorem sortByRank_perm (rank : MemoryRow → Int) (l : List MemoryRow) :
    (sortByRank rank l).Perm l :=
  List.perm_insertionSort _ l

/-- C8: searchMemories with a tag filter returns only rows of the store
whose tag equals the filter and that match the query, ordered by the engine
rank (ascending, lower rank is better) and paired with the exposed
`relevance_score = -rank`; on the spec fixture, searching "Test" under tagA
returns exactly m1 and m2 and m3 never appears. -/
theorem searchMemories_scoped :
    (∀ (rank : MemoryRow → Int) (s : Store) (q tag : String) (limit : Nat),
      (∀ p ∈ SqliteManager.searchMemories rank s q (some tag) limit,
        p.1 ∈ s ∧ p.1.container_tag = tag ∧ ftsMatch q p.1 = true ∧
          p.2 = -(rank p.1)) ∧
      List.Pairwise (fun a b => rank a.1 ≤ rank b.1)
        (SqliteManager.searchMemories rank s q (some tag) limit)) ∧
    (SqliteManager.searchMemories (fun _ => 0) store8 "Test" (some "tagA") 10).map
        (fun p => p.1.id) = ["m1", "m2"] := by
  constructor
  · intro rank s q tag limit
    constructor
    · intro p hp
      simp only [SqliteManager.searchMemories] at hp
      rcases List.mem_map.mp hp with ⟨r, hr, heq⟩
      have hr2 := (List.take_sublist _ _).mem hr
      have hr3 := (sortByRank_perm rank _).mem_iff.mp hr2
      have hfil := List.mem_filter.mp hr3
      obtain ⟨hmem, hpred⟩ := hfil
      rw [Bool.and_eq_true] at hpred
      obtain ⟨hmatch, htag⟩ := hpred
      rw [← heq]
      refine ⟨hmem, ?_, hmatch, rfl⟩
      simpa using htag
    · simp only [SqliteManager.searchMemories]
      rw [List.pairwise_map]
      exact List.Pairwise.sublist (List.take_sublist _ _)
        (sortByRank_sorted rank _)
  · decide

/-- Writing the same document to the same path twice leaves the checkout
exactly as after the first write: the second write overwrites in place and
creates no second file. -/
theorem putFile_idem (fs : GitHubSync.Files) (p : String)
    (d : GitHubSync.ExportDoc) :
    GitHubSync.putFile (GitHubSync.putFile fs p d) p d
      = GitHubSync.putFile fs p d := by
  cases hany : fs.any (fun e => e.1 == p)
  · have h1 : GitHubSync.putFile fs p d = fs ++ [(p, d)] := by
      unfold GitHubSync.putFile
      rw [hany]
      simp
    rw [h1]
    have hany2 : (fs ++ [(p, d)]).any (fun e => e.1 == p) = true := by
      rw [List.any_append]
      simp
    unfold GitHubSync.putFile
    rw [hany2]
    simp only [if_true, List.map_append]
    have hfs : fs.map (fun e => if e.1 == p then (p, d) else e) = fs := by
      have hall := List.any_eq_false.mp hany
      nth_rewrite 2 [show fs = fs.map id from (List.map_id fs).symm]
      apply List.map_congr_left
      intro e he
      rw [if_neg]
      · rfl
      · simpa using hall e he
    rw [hfs]
    simp
  · have h1 : GitHubSync.putFile fs p d
        = fs.map (fun e => if e.1 == p then (p, d) else e) := by
      unfold GitHubSync.putFile
      rw [hany]
      simp
    rw [h1]
    have hany2 : (fs.map (fun e => if e.1 == p then (p, d) else e)).any
        (fun e => e.1 == p) = true := by
      rcases List.any_eq_true.mp hany with ⟨e, he, hep⟩
      apply List.any_eq_true.mpr
      refine ⟨(p, d), ?_, by simp⟩
      apply List.mem_map.mpr
      exact ⟨e, he, by rw [if_pos hep]⟩
    unfold GitHubSync.putFile
    rw [hany2]
    simp only [if_true, List.map_map]
    apply List.map_congr_left
    intro e he
    by_cases hep : e.1 = p
    · simp [Function.comp, hep]
    · simp [Function.comp, hep]

/-- C9: export is idempotent. Re-exporting a record writes the same derived
path with the same document, leaving the checkout identical (no second
file), so a subsequent import is unchanged and yields exactly one entry for
the record's id when the record is the only content; the derived path has
the `memories/<containerTag>/<YYYY-MM>/<DD>-<id>.json` shape, here at a
concrete creation date. -/
theorem exportMemory_idempotent :
    (∀ (fs : GitHubSync.Files) (m : MemoryRow),
        GitHubSync.exportMemory (GitHubSync.exportMemory fs m).1 m
          = GitHubSync.exportMemory fs m) ∧
    (∀ (fs : GitHubSync.Files) (m : MemoryRow) (now : Nat),
        GitHubSync.importMemories
            (GitHubSync.exportMemory (GitHubSync.exportMemory fs m).1 m).1 now
          = GitHubSync.importMemories (GitHubSync.exportMemory fs m).1 now) ∧
    (∀ (m : MemoryRow) (now : Nat),
        GitHubSync.importMemories
            (GitHubSync.exportMemory (GitHubSync.exportMemory [] m).1 m).1 now
          = [GitHubSync.rowOfDoc (GitHubSync.docOf m) now]) ∧
    (GitHubSync.exportMemory [] pathrow).2 = "memories/work/2023-11/14-p1.json" ∧
    ((GitHubSync.exportMemory (GitHubSync.exportMemory [] pathrow).1 pathrow).1).length
      = 1 := by
  have hidem : ∀ (fs : GitHubSync.Files) (m : MemoryRow),
      GitHubSync.exportMemory (GitHubSync.exportMemory fs m).1 m
        = GitHubSync.exportMemory fs m := by
    intro fs m
    unfold GitHubSync.exportMemory
    rw [putFile_idem]
  refine ⟨hidem, ?_, ?_, by decide, by decide⟩
  · intro fs m now
    rw [hidem fs m]
  · intro m now
    rw [hidem [] m]
    rfl

/-- The polling loop performs at most `fuel` polls beyond the starting
index. -/
theorem pollRun_count_le (polls : Nat → GitHubAuth.PollResult) :
    ∀ (fuel i : Nat), (GitHubAuth.pollRun polls fuel i).2 ≤ i + fuel := by
  intro fuel
  induction fuel with
  | zero =>
    intro i
    simp [GitHubAuth.pollRun]
  | succ f ih =>
    intro i
    unfold GitHubAuth.pollRun
    cases polls i with
    | token t => simp
    | denied e => simp
    | pending =>
      have := ih (i + 1)
      simp only
      omega

/-- With pending polls up to index `i + d` and fuel left, the first
non-pending poll decides the loop: a token is returned at once and a denial
is raised at once, after exactly `d + 1` polls beyond the start. -/
theorem pollRun_first_decides (polls : Nat → GitHubAuth.PollResult) :
    ∀ (d fuel i : Nat), d < fuel →
      (∀ j, j < d → polls (i + j) = GitHubAuth.PollResult.pending) →
      (∀ t, polls (i + d) = GitHubAuth.PollResult.token t →
          GitHubAuth.pollRun polls fuel i = (Except.ok t, i + d + 1)) ∧
      (∀ e, polls (i + d) = GitHubAuth.PollResult.denied e →
          GitHubAuth.pollRun polls fuel i = (Except.error e, i + d + 1)) := by
  intro d
  induction d with
  | zero =>
    intro fuel i hf _
    cases fuel with
    | zero => omega
    | succ f =>
      constructor
      · intro t ht
        unfold GitHubAuth.pollRun
        rw [show polls i = GitHubAuth.PollResult.token t from by simpa using ht]
      · intro e he
        unfold GitHubAuth.pollRun
        rw [show polls i = GitHubAuth.PollResult.denied e from by simpa using he]
  | succ d ih =>
    intro fuel i hf hpend
    cases fuel with
    | zero => omega
    | succ f =>
      have h0 : polls i = GitHubAuth.PollResult.pending := by
        simpa using hpend 0 (by omega)
      have hpend2 : ∀ j, j < d → polls (i + 1 + j) = GitHubAuth.PollResult.pending := by
        intro j hj
        have := hpend (j + 1) (by omega)
        rwa [show i + (j + 1) = i + 1 + j from by omega] at this
      have harith : i + 1 + d = i + (d + 1) := by omega
      obtain ⟨htok, hden⟩ := ih f (i + 1) (by omega) hpend2
      constructor
      · intro t ht
        unfold GitHubAuth.pollRun
        rw [h0, show i + (d + 1) + 1 = i + 1 + d + 1 from by omega]
        exact htok t (by rwa [harith])
      · intro e he
        unfold GitHubAuth.pollRun
        rw [h0, show i + (d + 1) + 1 = i + 1 + d + 1 from by omega]
        exact hden e (by rwa [harith])

/-- When every poll within the fuel budget is pending, the loop exhausts
its fuel and raises the timeout error. -/
theorem pollRun_timeout (polls : Nat → GitHubAuth.PollResult) :
    ∀ (fuel i : Nat),
      (∀ j, j < fuel → polls (i + j) = GitHubAuth.PollResult.pending) →
      GitHubAuth.pollRun polls fuel i
        = (Except.error "Device flow timed out", i + fuel) := by
  intro fuel
  induction fuel with
  | zero =>
    intro i h
    simp [GitHubAuth.pollRun]
  | succ f ih =>
    intro i h
    have h0 : polls i = GitHubAuth.PollResult.pending := by
      simpa using h 0 (by omega)
    unfold GitHubAuth.pollRun
    rw [h0]
    have h2 : ∀ j, j < f → polls (i + 1 + j) = GitHubAuth.PollResult.pending := by
      intro j hj
      have := h (j + 1) (by omega)
      rwa [show i + (j + 1) = i + 1 + j from by omega] at this
    rw [show i + (f + 1) = i + 1 + f from by omega]
    exact ih (i + 1) h2

/-- C10: the device-authorization polling loop performs at most 120 polls
(a 10-minute ceiling of sleep at the documented 5-second interval), returns
the token as soon as a poll yields one, raises the remote's explicit denial
immediately, and fails with the timeout error when every poll within the
budget is still pending. -/
theorem pollForToken_bounded :
    (∀ polls, (GitHubAuth.pollForToken polls).2 ≤ 120 ∧
        5 * (GitHubAuth.pollForToken polls).2 ≤ 600) ∧
    (∀ polls (i : Nat) t, i < 120 → polls i = GitHubAuth.PollResult.token t →
        (∀ j, j < i → polls j = GitHubAuth.PollResult.pending) →
        GitHubAuth.pollForToken polls = (Except.ok t, i + 1)) ∧
    (∀ polls (i : Nat) e, i < 120 → polls i = GitHubAuth.PollResult.denied e →
        (∀ j, j < i → polls j = GitHubAuth.PollResult.pending) →
        GitHubAuth.pollForToken polls = (Except.error e, i + 1)) ∧
    (∀ polls, (∀ j, j < 120 → polls j = GitHubAuth.PollResult.pending) →
        GitHubAuth.pollForToken polls
          = (Except.error "Device flow timed out", 120)) := by
  refine ⟨?_, ?_, ?_, ?_⟩
  · intro polls
    have h2 : (GitHubAuth.pollForToken polls).2 ≤ 0 + 120 :=
      pollRun_count_le polls 120 0
    exact ⟨by omega, by omega⟩
  · intro polls i t hi ht hpend
    have := (pollRun_first_decides polls i 120 0 hi
      (fun j hj => by simpa using hpend j hj)).1 t (by simpa using ht)
    simpa [GitHubAuth.pollForToken] using this
  · intro polls i e hi he hpend
    have := (pollRun_first_decides polls i 120 0 hi
      (fun j hj => by simpa using hpend j hj)).2 e (by simpa using he)
    simpa [GitHubAuth.pollForToken] using this
  · intro polls h
    have := pollRun_timeout polls 120 0 (fun j hj => by simpa using h j hj)
    simpa [GitHubAuth.pollForToken] using this

/-- Witness: the polling theorem at a concrete trace that succeeds on the
third poll. -/
theorem pollForToken_bounded_witness :
    GitHubAuth.pollForToken
        (fun n => if n = 2 then GitHubAuth.PollResult.token "tok"
          else GitHubAuth.PollResult.pending)
      = (Except.ok "tok", 3) :=
  pollForToken_bounded.2.1
    (fun n => if n = 2 then GitHubAuth.PollResult.token "tok"
      else GitHubAuth.PollResult.pending)
    2 "tok" (by decide) (by decide) (by decide)
